import Mathlib

/-!
Shallow embedding of the simulation engine of `src/src/main.rs` (repository
`0xb-s/simu`).

Modelling conventions:

* `f32` values are modelled as exact rationals (`ℚ`); the numeric literals
  `0.1` and `1.0` of the source are the rationals `1/10` and `1`.
* `petgraph::graph::DiGraph<usize, f32>` is modelled by the list of node
  weights in insertion order (a node's index is its position in that list)
  together with the list of edges as pairs `(source index, target index)`.
  The `f32` edge weight is fixed at `1.0` by `connect_components` and never
  read by the engine, so it is omitted from the edge representation.
* `HashMap<usize, f32>` / `HashMap<usize, Component>` are modelled as
  association lists; the engine only ever accesses them through keyed
  `get` / `insert`, never through iteration, so the representation is
  observationally interchangeable with the hash map.
* `petgraph::visit::Topo` is modelled by the stack-driven Kahn traversal that
  the library implements: the initial stack holds the nodes without incoming
  edges (collected in index order and popped from the end, hence reversed
  here), and after visiting a node each successor whose predecessors are all
  visited is pushed.  The loop is written with explicit fuel;
  `nodes + edges + 1` iterations bound every traversal, since every loop
  iteration pops one entry and at most `nodes + edges` entries are ever
  pushed.
* the `ComponentType::Delay` arm of `simulate` is a `todo` placeholder that
  aborts the process; the embedded evaluator returns `none` there and
  `Option` threads the abort through the run.
* UI-only data (`position`, `is_dragging`, `selected_component`) and the
  logging statements are omitted: the engine never reads them.
-/

namespace Simu

/-- The closed variant set of `ComponentType` in `src/src/main.rs` (lines
33-48).  `Delay` carries its length, `PIDController` its three gains. -/
inductive ComponentType where
  | Step
  | TransferFunction
  | Scope
  | Delay (delay_steps : Nat)
  | Difference
  | DiscreteDerivative
  | DiscreteIntegrator
  | PIDController (kp ki kd : ℚ)
  | Memory
deriving DecidableEq, Repr

/-- The `Component` struct (lines 50-56); the UI fields `position` and
`is_dragging` are never read by the engine and are omitted. -/
structure Component where
  id : Nat
  component_type : ComponentType
deriving DecidableEq, Repr

/-- The `petgraph` directed graph `DiGraph<usize, f32>`: node weights in
insertion order (index = position) and edges as index pairs. -/
structure DiGraph where
  nodeWeights : List Nat
  edges : List (Nat × Nat)
deriving DecidableEq, Repr

/-- List indexing with default `0`, for reading a node's weight
(`self.connections[node_idx]`). -/
def getNat : List Nat → Nat → Nat
  | [], _ => 0
  | x :: _, 0 => x
  | _ :: xs, n + 1 => getNat xs n

/-- The weight stored at a node index. -/
def DiGraph.weightAt (g : DiGraph) (i : Nat) : Nat :=
  getNat g.nodeWeights i

/-- The list `[0, 1, ..., n-1]`, the graph's `node_indices()` iterator. -/
def upto : Nat → List Nat
  | 0 => []
  | n + 1 => upto n ++ [n]

/-- Node indices of the graph, in iteration order. -/
def DiGraph.nodeIndices (g : DiGraph) : List Nat :=
  upto g.nodeWeights.length

/-- Source indices of the edges into node index `i`
(`neighbors_directed(i, Incoming)`), one entry per edge, in edge insertion
order. -/
def incomingIdxs : List (Nat × Nat) → Nat → List Nat
  | [], _ => []
  | e :: es, i => if e.2 = i then e.1 :: incomingIdxs es i else incomingIdxs es i

/-- Target indices of the edges out of node index `i`
(`neighbors(i)`), one entry per edge. -/
def outgoingIdxs : List (Nat × Nat) → Nat → List Nat
  | [], _ => []
  | e :: es, i => if e.1 = i then e.2 :: outgoingIdxs es i else outgoingIdxs es i

/-- Membership test on a list of naturals (the visit map of `Topo`). -/
def memN : List Nat → Nat → Bool
  | [], _ => false
  | y :: ys, x => if y = x then true else memN ys x

/-- Whether every element of the first list is in the second (the
`all incoming visited` readiness check of `Topo::next`). -/
def allMem : List Nat → List Nat → Bool
  | [], _ => true
  | x :: xs, vs => if memN vs x then allMem xs vs else false

/-- The successors (given as a list of node indices) whose incoming
neighbours are all visited; these are pushed on the traversal stack. -/
def readyFilter (g : DiGraph) (visited : List Nat) : List Nat → List Nat
  | [] => []
  | m :: ms =>
    if allMem (incomingIdxs g.edges m) visited then
      m :: readyFilter g visited ms
    else readyFilter g visited ms

/-- The node indices (from the given list) without incoming edges; these seed
the traversal stack of `Topo::new`. -/
def noIncomingNodes (g : DiGraph) : List Nat → List Nat
  | [] => []
  | i :: is =>
    if incomingIdxs g.edges i = [] then i :: noIncomingNodes g is
    else noIncomingNodes g is

/-- The fueled work loop of `Topo::next`: pop a node index, skip it if
already visited, otherwise mark it, push its ready successors and emit it. -/
def topoLoop (g : DiGraph) : Nat → List Nat → List Nat → List Nat
  | 0, _, _ => []
  | fuel + 1, visited, stack =>
    match stack with
    | [] => []
    | nix :: rest =>
      if memN visited nix then topoLoop g fuel visited rest
      else
        nix :: topoLoop g fuel (nix :: visited)
          (readyFilter g (nix :: visited) (outgoingIdxs g.edges nix) ++ rest)

/-- The complete visitation order produced by `Topo` over the graph: Kahn's
algorithm with a LIFO stack seeded by the no-incoming nodes (collected in
index order, popped from the end). -/
def kahnOrder (g : DiGraph) : List Nat :=
  topoLoop g (g.nodeWeights.length + g.edges.length + 1) []
    ((noIncomingNodes g g.nodeIndices).reverse)

/-- Keyed lookup in the `component_outputs` map (`HashMap::get`). -/
def lookupOut : List (Nat × ℚ) → Nat → Option ℚ
  | [], _ => none
  | p :: m, k => if p.1 = k then some p.2 else lookupOut m k

/-- Removal of a key, used to give `insertOut` the replace semantics of
`HashMap::insert`. -/
def eraseKey : List (Nat × ℚ) → Nat → List (Nat × ℚ)
  | [], _ => []
  | p :: m, k => if p.1 = k then eraseKey m k else p :: eraseKey m k

/-- Keyed insertion in the `component_outputs` map (`HashMap::insert`,
replacing any previous binding). -/
def insertOut (m : List (Nat × ℚ)) (k : Nat) (v : ℚ) : List (Nat × ℚ) :=
  (k, v) :: eraseKey m k

/-- Keyed lookup in the `components` map (`self.components.get`). -/
def lookupComp : List (Nat × Component) → Nat → Option Component
  | [], _ => none
  | p :: m, k => if p.1 = k then some p.2 else lookupComp m k

/-- First node index (in iteration order) whose weight equals the target:
`node_indices().find(|n| self.connections[*n] == component_id)`, used by
`get_input_value`. -/
def findIdxWithWeight (g : DiGraph) : List Nat → Nat → Option Nat
  | [], _ => none
  | i :: is, target =>
    if g.weightAt i = target then some i else findIdxWithWeight g is target

/-- First node index equal to the target:
`node_indices().find(|n| n.index() == from)`, used by `connect_components`
(note: it compares the *index*, not the weight). -/
def findIdxSelf : List Nat → Nat → Option Nat
  | [], _ => none
  | i :: is, target => if i = target then some i else findIdxSelf is target

/-- The application state (`SimulatorApp`, lines 58-64) restricted to the
engine fields; `selected_component` is UI-only and omitted. -/
structure SimulatorApp where
  components : List (Nat × Component)
  connections : DiGraph
  next_id : Nat
  simulation_data : List ℚ
deriving DecidableEq, Repr

/-- `SimulatorApp::new`. -/
def SimulatorApp.new : SimulatorApp :=
  { components := [], connections := ⟨[], []⟩, next_id := 0, simulation_data := [] }

/-- `SimulatorApp::add_component`: assign the next id, register the
component and add a graph node carrying the id as weight.  The returned
`NodeIndex` is never used by the engine and is not modelled. -/
def SimulatorApp.add_component (app : SimulatorApp) (component_type : ComponentType) :
    SimulatorApp :=
  let id := app.next_id
  { components := app.components ++ [(id, ⟨id, component_type⟩)]
    connections := ⟨app.connections.nodeWeights ++ [id], app.connections.edges⟩
    next_id := id + 1
    simulation_data := app.simulation_data }

/-- `SimulatorApp::connect_components` (lines 90-97): look both arguments up
among the node *indices* and add an edge only when both are found. -/
def SimulatorApp.connect_components (app : SimulatorApp) (fromId toId : Nat) :
    SimulatorApp :=
  match findIdxSelf app.connections.nodeIndices fromId,
        findIdxSelf app.connections.nodeIndices toId with
  | some from_idx, some to_idx =>
    { app with
      connections :=
        ⟨app.connections.nodeWeights, app.connections.edges ++ [(from_idx, to_idx)]⟩ }
  | _, _ => app

/-- The summation loop of `get_input_value`: starting from `input_sum = 0`,
add the recorded output of every producer that has an entry in the map and
skip the producers that have none. -/
def inputSum (m : List (Nat × ℚ)) : List Nat → ℚ → ℚ
  | [], acc => acc
  | p :: ps, acc =>
    match lookupOut m p with
    | some v => inputSum m ps (acc + v)
    | none => inputSum m ps acc

/-- `SimulatorApp::get_input_value` (lines 208-233): find the node whose
weight is the component id and sum the recorded outputs of its incoming
neighbours; an absent node or an absent output contributes nothing. -/
def SimulatorApp.get_input_value (app : SimulatorApp) (component_id : Nat)
    (component_outputs : List (Nat × ℚ)) : ℚ :=
  match findIdxWithWeight app.connections app.connections.nodeIndices component_id with
  | none => 0
  | some node_idx =>
    inputSum component_outputs
      ((incomingIdxs app.connections.edges node_idx).map (app.connections.weightAt)) 0

/-- The in-flight state of one simulation run: the single, run-long
`component_outputs` map and the `simulation_data` trace being appended to. -/
structure SimState where
  outputs : List (Nat × ℚ)
  trace : List ℚ
deriving DecidableEq, Repr

/-- The body of `simulate`'s inner `while let` loop for one node index
(lines 112-178): dispatch on the component type, compute the output from the
gathered input and the entries of the shared map, and insert it at the
component's id.  `Scope` appends its input to the trace and inserts nothing;
`Delay` is the `todo` placeholder and aborts (`none`).  `time_step = 1/10`,
`alpha = 1/10`, the PID reference is `1`. -/
def processNode (app : SimulatorApp) (st : SimState) (node_idx : Nat) :
    Option SimState :=
  let component_id := app.connections.weightAt node_idx
  match lookupComp app.components component_id with
  | none => some st
  | some comp =>
    match comp.component_type with
    | .Step => some ⟨insertOut st.outputs component_id 1, st.trace⟩
    | .TransferFunction =>
      let input_value := app.get_input_value component_id st.outputs
      let prev_output := (lookupOut st.outputs component_id).getD 0
      some ⟨insertOut st.outputs component_id
              (prev_output + (1/10) * (input_value - prev_output)), st.trace⟩
    | .Scope =>
      let input_value := app.get_input_value component_id st.outputs
      some ⟨st.outputs, st.trace ++ [input_value]⟩
    | .Delay _ => none
    | .Difference =>
      let input_value := app.get_input_value component_id st.outputs
      let prev_value := (lookupOut st.outputs component_id).getD input_value
      some ⟨insertOut st.outputs component_id (input_value - prev_value), st.trace⟩
    | .DiscreteDerivative =>
      let input_value := app.get_input_value component_id st.outputs
      let prev_value := (lookupOut st.outputs component_id).getD input_value
      some ⟨insertOut st.outputs component_id ((input_value - prev_value) / (1/10)),
            st.trace⟩
    | .DiscreteIntegrator =>
      let input_value := app.get_input_value component_id st.outputs
      let prev_value := (lookupOut st.outputs component_id).getD 0
      some ⟨insertOut st.outputs component_id (prev_value + input_value * (1/10)),
            st.trace⟩
    | .PIDController kp ki kd =>
      let input_value := app.get_input_value component_id st.outputs
      let prev_error := (lookupOut st.outputs (component_id + 1)).getD 0
      let prev_integral := (lookupOut st.outputs (component_id + 2)).getD 0
      let error := 1 - input_value
      let integral := prev_integral + error * (1/10)
      let derivative := (error - prev_error) / (1/10)
      some ⟨insertOut st.outputs component_id
              (kp * error + ki * integral + kd * derivative), st.trace⟩
    | .Memory =>
      let input_value := app.get_input_value component_id st.outputs
      some ⟨insertOut st.outputs component_id
              ((lookupOut st.outputs component_id).getD input_value), st.trace⟩

/-- Evaluation of a list of node indices in order, threading the run state;
`none` propagates the `Delay` abort. -/
def evalNodes (app : SimulatorApp) (st : SimState) : List Nat → Option SimState
  | [] => some st
  | i :: is =>
    match processNode app st i with
    | none => none
    | some st2 => evalNodes app st2 is

/-- One simulation step: one full `Topo` traversal of the current graph. -/
def stepOnce (app : SimulatorApp) (st : SimState) : Option SimState :=
  evalNodes app st (kahnOrder app.connections)

/-- The step loop of `simulate`, threading the run state forward. -/
def runStepsAux (app : SimulatorApp) (st : SimState) : Nat → Option SimState
  | 0 => some st
  | n + 1 =>
    match stepOnce app st with
    | none => none
    | some st2 => runStepsAux app st2 n

/-- A whole run of `n` steps from the cleared trace and the fresh, empty
`component_outputs` map created at the top of `simulate`. -/
def runSteps (app : SimulatorApp) (n : Nat) : Option SimState :=
  runStepsAux app ⟨[], []⟩ n

/-- `simulate` with a configurable step count: clear `simulation_data`, run
the steps, store the recorded trace. -/
def simulateSteps (app : SimulatorApp) (n : Nat) : Option SimulatorApp :=
  match runSteps app n with
  | none => none
  | some st => some { app with simulation_data := st.trace }

/-- `SimulatorApp::simulate` (lines 100-181): 100 steps of `time_step = 1/10`. -/
def SimulatorApp.simulate (app : SimulatorApp) : Option SimulatorApp :=
  simulateSteps app 100

/-! ### Evaluation under the specification's previous-map discipline

The spec (section 4.4, and claim C1) prescribes that the summed input of
every component be computed from the previous completed step's state map
only, with the outputs of the current step collected in a separate map that
replaces the previous one wholesale at the end of the step.  The following
evaluator is the same per-type dispatch as `processNode`, with every read
taken from the frozen previous map.  It exists to compare the source's
behaviour against the claimed behaviour. -/

/-- Modelled from the spec (claim C1 wording): evaluate one node reading the
gathered input, the component's own previous state and the PID pseudo-slots
from the frozen map `prev` of the previous completed step, writing the new
output into the current-step map being built in `st`. -/
def prevProcessNode (app : SimulatorApp) (prev : List (Nat × ℚ)) (st : SimState)
    (node_idx : Nat) : Option SimState :=
  let component_id := app.connections.weightAt node_idx
  match lookupComp app.components component_id with
  | none => some st
  | some comp =>
    match comp.component_type with
    | .Step => some ⟨insertOut st.outputs component_id 1, st.trace⟩
    | .TransferFunction =>
      let input_value := app.get_input_value component_id prev
      let prev_output := (lookupOut prev component_id).getD 0
      some ⟨insertOut st.outputs component_id
              (prev_output + (1/10) * (input_value - prev_output)), st.trace⟩
    | .Scope =>
      let input_value := app.get_input_value component_id prev
      some ⟨st.outputs, st.trace ++ [input_value]⟩
    | .Delay _ => none
    | .Difference =>
      let input_value := app.get_input_value component_id prev
      let prev_value := (lookupOut prev component_id).getD input_value
      some ⟨insertOut st.outputs component_id (input_value - prev_value), st.trace⟩
    | .DiscreteDerivative =>
      let input_value := app.get_input_value component_id prev
      let prev_value := (lookupOut prev component_id).getD input_value
      some ⟨insertOut st.outputs component_id ((input_value - prev_value) / (1/10)),
            st.trace⟩
    | .DiscreteIntegrator =>
      let input_value := app.get_input_value component_id prev
      let prev_value := (lookupOut prev component_id).getD 0
      some ⟨insertOut st.outputs component_id (prev_value + input_value * (1/10)),
            st.trace⟩
    | .PIDController kp ki kd =>
      let input_value := app.get_input_value component_id prev
      let prev_error := (lookupOut prev (component_id + 1)).getD 0
      let prev_integral := (lookupOut prev (component_id + 2)).getD 0
      let error := 1 - input_value
      let integral := prev_integral + error * (1/10)
      let derivative := (error - prev_error) / (1/10)
      some ⟨insertOut st.outputs component_id
              (kp * error + ki * integral + kd * derivative), st.trace⟩
    | .Memory =>
      let input_value := app.get_input_value component_id prev
      some ⟨insertOut st.outputs component_id
              ((lookupOut prev component_id).getD input_value), st.trace⟩

/-- Modelled from the spec (claim C1 wording): evaluate a list of node
indices against the frozen previous map. -/
def prevEvalNodes (app : SimulatorApp) (prev : List (Nat × ℚ)) (st : SimState) :
    List Nat → Option SimState
  | [] => some st
  | i :: is =>
    match prevProcessNode app prev st i with
    | none => none
    | some st2 => prevEvalNodes app prev st2 is

/-- Modelled from the spec (claim C1 wording): one step under the
previous-map discipline; the map built this step replaces the previous one
wholesale. -/
def prevStepOnce (app : SimulatorApp) (st : SimState) : Option SimState :=
  prevEvalNodes app st.outputs ⟨[], st.trace⟩ (kahnOrder app.connections)

/-- Modelled from the spec (claim C1 wording): the step loop under the
previous-map discipline. -/
def prevRunAux (app : SimulatorApp) (st : SimState) : Nat → Option SimState
  | 0 => some st
  | n + 1 =>
    match prevStepOnce app st with
    | none => none
    | some st2 => prevRunAux app st2 n

/-- Modelled from the spec (claim C1 wording): a whole run under the
previous-map discipline, from an empty initial state map. -/
def runPrevSteps (app : SimulatorApp) (n : Nat) : Option SimState :=
  prevRunAux app ⟨[], []⟩ n

/-! ### The Delay component, modelled from the spec

The `ComponentType::Delay` arm of `simulate` (lines 131-133 of
`src/src/main.rs`) is a `todo` placeholder that aborts the process, so there
is no source to embed; spec section 4.5 prescribes: output = the input
recorded `n` steps ago, an explicit initial value `0.0` for step index
`< n`, state = a ring buffer of the last `n` inputs. -/

/-- Modelled from the spec: one step of the `Delay(n)` ring buffer.  The
buffer holds the last `n` inputs (older first); the step appends the fresh
input, emits the entry from `n` steps ago and drops it from the buffer. -/
def delayStep (buf : List ℚ) (input : ℚ) : ℚ × List ℚ :=
  ((buf ++ [input]).headD 0, (buf ++ [input]).tail)

/-- Modelled from the spec: the initial ring buffer, holding the explicit
initial value `0` in all `n` slots. -/
def delayInitBuf (n : Nat) : List ℚ := List.replicate n 0

/-- Modelled from the spec: run the ring buffer over a list of inputs,
collecting the per-step outputs. -/
def delayRun (buf : List ℚ) : List ℚ → List ℚ
  | [] => []
  | i :: rest => (delayStep buf i).1 :: delayRun (delayStep buf i).2 rest

/-- Modelled from the spec: the output sequence of `Delay(n)` over a list of
inputs, from the initial all-zero buffer. -/
def delayOutputs (n : Nat) (inputs : List ℚ) : List ℚ :=
  delayRun (delayInitBuf n) inputs

/-- Modelled from the claim (C5 wording): one PID update carrying the newly
computed error and running integral forward as the component's state. -/
def pidSpecStep (kp ki kd dt input prevE prevI : ℚ) : ℚ × ℚ × ℚ :=
  let e := 1 - input
  let integral := prevI + e * dt
  let deriv := (e - prevE) / dt
  (kp * e + ki * integral + kd * deriv, e, integral)

/-- Modelled from the claim (C5 wording): the PID output and carried state
at step `t`, with error and integral both `0` before the first step. -/
def pidSpecRun (kp ki kd dt : ℚ) (inputs : Nat → ℚ) : Nat → ℚ × ℚ × ℚ
  | 0 => pidSpecStep kp ki kd dt (inputs 0) 0 0
  | t + 1 =>
    let p := pidSpecRun kp ki kd dt inputs t
    pidSpecStep kp ki kd dt (inputs (t + 1)) p.2.1 p.2.2

/-! ### Concrete instances used by the claims -/

/-- A constant source feeding an observer: `Step (id 0) → Scope (id 1)`. -/
def stepScopeApp : SimulatorApp :=
  ((SimulatorApp.new.add_component .Step).add_component .Scope).connect_components 0 1

/-- A constant source feeding a difference node:
`Step (id 0) → Difference (id 1)`. -/
def stepDiffApp : SimulatorApp :=
  ((SimulatorApp.new.add_component .Step).add_component .Difference).connect_components 0 1

/-- A ramp feeding a memory cell, with the ramp also observed:
`Step (id 0) → DiscreteIntegrator (id 1) → Memory (id 2)` and
`DiscreteIntegrator (id 1) → Scope (id 3)`. -/
def memApp : SimulatorApp :=
  (((((((SimulatorApp.new.add_component .Step).add_component
      .DiscreteIntegrator).add_component .Memory).add_component
      .Scope).connect_components 0 1).connect_components 1 2).connect_components 1 3)

/-- A lone PID controller with unit gains: `PIDController (id 0)`, no edges. -/
def pidApp : SimulatorApp :=
  SimulatorApp.new.add_component (.PIDController 1 1 1)

/-- A two-node instantaneous cycle of stateless first-order filters:
`TransferFunction (id 0) ⇄ TransferFunction (id 1)`. -/
def cycApp : SimulatorApp :=
  (((SimulatorApp.new.add_component .TransferFunction).add_component
      .TransferFunction).connect_components 0 1).connect_components 1 0

/-- A lone delay component: `Delay(3) (id 0)`. -/
def delayApp : SimulatorApp :=
  SimulatorApp.new.add_component (.Delay 3)

/-- Two sources fanning into one consumer: `Step (id 0) → Memory (id 2)` and
`Step (id 1) → Memory (id 2)`. -/
def fanApp : SimulatorApp :=
  ((((SimulatorApp.new.add_component .Step).add_component
      .Step).add_component .Memory).connect_components 0 2).connect_components 1 2

/-- Two parallel edges from one source into one consumer:
`Step (id 0) → Memory (id 1)` twice. -/
def fanParApp : SimulatorApp :=
  (((SimulatorApp.new.add_component .Step).add_component
      .Memory).connect_components 0 1).connect_components 0 1

/-- Two registered components and no edges, for exercising
`connect_components`. -/
def twoNodeApp : SimulatorApp :=
  (SimulatorApp.new.add_component .Step).add_component .Scope

/-- A scope in the middle of a chain:
`Step (id 0) → Scope (id 1) → Memory (id 2)`. -/
def scopeFeedApp : SimulatorApp :=
  ((((SimulatorApp.new.add_component .Step).add_component .Scope).add_component
      .Memory).connect_components 0 1).connect_components 1 2

/-! ### Helper lemmas about the map and list primitives -/

theorem lookupOut_eraseKey (m : List (Nat × ℚ)) (k j : Nat) :
    lookupOut (eraseKey m k) j = if j = k then none else lookupOut m j := by
  induction m with
  | nil => simp [eraseKey, lookupOut]
  | cons p m ih =>
    by_cases hjk : j = k
    · subst hjk
      by_cases hpk : p.1 = j <;> simp [eraseKey, lookupOut, hpk, ih]
    · by_cases hpk : p.1 = k
      · have hpj : ¬ p.1 = j := by omega
        have hkj : ¬ k = j := by omega
        simp [eraseKey, lookupOut, hpk, hpj, ih, hjk, hkj]
      · by_cases hpj : p.1 = j <;> simp [eraseKey, lookupOut, hpk, hpj, ih, hjk]

theorem lookupOut_insertOut (m : List (Nat × ℚ)) (k j : Nat) (v : ℚ) :
    lookupOut (insertOut m k v) j = if j = k then some v else lookupOut m j := by
  by_cases hjk : j = k
  · simp [insertOut, lookupOut, lookupOut_eraseKey, hjk]
  · have hkj : ¬ k = j := by omega
    simp [insertOut, lookupOut, lookupOut_eraseKey, hjk, hkj]

theorem eraseKey_eraseKey (m : List (Nat × ℚ)) (k : Nat) :
    eraseKey (eraseKey m k) k = eraseKey m k := by
  induction m with
  | nil => simp [eraseKey]
  | cons p m ih =>
    by_cases hpk : p.1 = k <;> simp [eraseKey, hpk, ih]

theorem insertOut_insertOut_same (m : List (Nat × ℚ)) (k : Nat) (v w : ℚ) :
    insertOut (insertOut m k v) k w = insertOut m k w := by
  simp [insertOut, eraseKey, eraseKey_eraseKey]

theorem upto_length (n : Nat) : (upto n).length = n := by
  induction n with
  | zero => simp [upto]
  | succ n ih => simp [upto, ih]

theorem mem_upto (x n : Nat) : x ∈ upto n ↔ x < n := by
  induction n with
  | zero => simp [upto]
  | succ n ih => simp [upto, ih]; omega

theorem getNat_append_left (l l' : List Nat) (i : Nat) (h : i < l.length) :
    getNat (l ++ l') i = getNat l i := by
  induction l generalizing i with
  | nil => simp at h
  | cons x xs ih =>
    cases i with
    | zero => simp [getNat]
    | succ i => simp only [List.cons_append, getNat]; exact ih i (by simpa using h)

theorem getNat_append_length (l l' : List Nat) (x : Nat) :
    getNat (l ++ x :: l') l.length = x := by
  induction l with
  | nil => simp [getNat]
  | cons y ys ih => simpa [getNat] using ih

theorem getNat_upto (i n : Nat) (h : i < n) : getNat (upto n) i = i := by
  induction n with
  | zero => omega
  | succ n ih =>
    rcases Nat.lt_or_ge i n with hn | hn
    · rw [upto, getNat_append_left _ _ _ (by simpa [upto_length] using hn)]
      exact ih hn
    · have hin : i = n := by omega
      subst hin
      have := getNat_append_length (upto i) [] i
      simpa [upto, upto_length] using this

theorem findIdxSelf_append (l₁ l₂ : List Nat) (t : Nat) :
    findIdxSelf (l₁ ++ l₂) t =
      match findIdxSelf l₁ t with
      | some x => some x
      | none => findIdxSelf l₂ t := by
  induction l₁ with
  | nil => simp [findIdxSelf]
  | cons x xs ih =>
    by_cases hxt : x = t <;> simp [findIdxSelf, hxt, ih]

theorem findIdxSelf_upto (n t : Nat) :
    findIdxSelf (upto n) t = if t < n then some t else none := by
  induction n with
  | zero => simp [upto, findIdxSelf]
  | succ n ih =>
    rw [upto, findIdxSelf_append, ih]
    rcases Nat.lt_trichotomy t n with h | h | h
    · have h' : t < n + 1 := by omega
      simp [h, h']
    · subst h
      simp [findIdxSelf, Nat.lt_irrefl, Nat.lt_succ_self]
    · have h1 : ¬ t < n := by omega
      have h2 : ¬ n = t := by omega
      have h3 : ¬ t < n + 1 := by omega
      simp [findIdxSelf, h1, h2, h3]

/-! ### Helper lemmas about the evaluator -/

theorem evalNodes_append (app : SimulatorApp) (st st₁ : SimState) (l₁ l₂ : List Nat)
    (h : evalNodes app st l₁ = some st₁) :
    evalNodes app st (l₁ ++ l₂) = evalNodes app st₁ l₂ := by
  induction l₁ generalizing st with
  | nil => simp [evalNodes] at h; simp [h]
  | cons i is ih =>
    simp only [evalNodes, List.cons_append] at h ⊢
    cases hp : processNode app st i with
    | none => simp [hp] at h
    | some st2 => simp only [hp] at h ⊢; exact ih st2 h

theorem processNode_sd (app : SimulatorApp) (d : List ℚ) (st : SimState) (i : Nat) :
    processNode { app with simulation_data := d } st i = processNode app st i := rfl

theorem evalNodes_sd (app : SimulatorApp) (d : List ℚ) (l : List Nat) : ∀ st : SimState,
    evalNodes { app with simulation_data := d } st l = evalNodes app st l := by
  induction l with
  | nil => intro st; rfl
  | cons i is ih =>
    intro st
    simp only [evalNodes, processNode_sd]
    cases processNode app st i with
    | none => rfl
    | some st2 => exact ih st2

theorem stepOnce_sd (app : SimulatorApp) (d : List ℚ) (st : SimState) :
    stepOnce { app with simulation_data := d } st = stepOnce app st := by
  have hk : kahnOrder ({ app with simulation_data := d } : SimulatorApp).connections =
      kahnOrder app.connections := rfl
  simp only [stepOnce, hk, evalNodes_sd]

theorem runStepsAux_sd (app : SimulatorApp) (d : List ℚ) : ∀ (n : Nat) (st : SimState),
    runStepsAux { app with simulation_data := d } st n = runStepsAux app st n := by
  intro n
  induction n with
  | zero => intro st; rfl
  | succ n ih =>
    intro st
    simp only [runStepsAux, stepOnce_sd]
    cases stepOnce app st with
    | none => rfl
    | some st2 => exact ih st2

theorem simulateSteps_sd (app : SimulatorApp) (d : List ℚ) (n : Nat) :
    simulateSteps { app with simulation_data := d } n =
      simulateSteps { app with simulation_data := [] } n := by
  simp only [simulateSteps, runSteps, runStepsAux_sd]

theorem processNode_scope (app : SimulatorApp) (m : List (Nat × ℚ)) (tr : List ℚ)
    (i s : Nat) (comp : Component)
    (hW : app.connections.weightAt i = s)
    (hC : lookupComp app.components s = some comp)
    (hT : comp.component_type = ComponentType.Scope) :
    processNode app ⟨m, tr⟩ i = some ⟨m, tr ++ [app.get_input_value s m]⟩ := by
  simp only [processNode, hW, hC, hT]

theorem evalNodes_trace_of_no_scope (app : SimulatorApp) (l : List Nat) :
    ∀ (m : List (Nat × ℚ)) (tr : List ℚ) (st' : SimState),
    (∀ i ∈ l, ∀ comp : Component,
        lookupComp app.components (app.connections.weightAt i) = some comp →
        comp.component_type ≠ ComponentType.Scope) →
    evalNodes app ⟨m, tr⟩ l = some st' → st'.trace = tr := by
  induction l with
  | nil =>
    intro m tr st' _ heval
    simp [evalNodes] at heval
    simp [← heval]
  | cons i is ih =>
    intro m tr st' h heval
    have hrest : ∀ j ∈ is, ∀ comp : Component,
        lookupComp app.components (app.connections.weightAt j) = some comp →
        comp.component_type ≠ ComponentType.Scope :=
      fun j hj => h j (List.mem_cons_of_mem _ hj)
    cases hc : lookupComp app.components (app.connections.weightAt i) with
    | none =>
      simp only [evalNodes, processNode, hc] at heval
      exact ih m tr st' hrest heval
    | some comp =>
      have hns : comp.component_type ≠ ComponentType.Scope :=
        h i (List.mem_cons_self i is) comp hc
      cases htype : comp.component_type with
      | Scope => exact absurd htype hns
      | Delay k => simp [evalNodes, processNode, hc, htype] at heval
      | Step =>
        simp only [evalNodes, processNode, hc, htype] at heval
        exact ih _ tr st' hrest heval
      | TransferFunction =>
        simp only [evalNodes, processNode, hc, htype] at heval
        exact ih _ tr st' hrest heval
      | Difference =>
        simp only [evalNodes, processNode, hc, htype] at heval
        exact ih _ tr st' hrest heval
      | DiscreteDerivative =>
        simp only [evalNodes, processNode, hc, htype] at heval
        exact ih _ tr st' hrest heval
      | DiscreteIntegrator =>
        simp only [evalNodes, processNode, hc, htype] at heval
        exact ih _ tr st' hrest heval
      | PIDController kp ki kd =>
        simp only [evalNodes, processNode, hc, htype] at heval
        exact ih _ tr st' hrest heval
      | Memory =>
        simp only [evalNodes, processNode, hc, htype] at heval
        exact ih _ tr st' hrest heval

theorem processNode_preserves_missing (app : SimulatorApp) (s : Nat) (comp : Component)
    (hC : lookupComp app.components s = some comp)
    (hT : comp.component_type = ComponentType.Scope)
    (st st' : SimState) (i : Nat)
    (hm : lookupOut st.outputs s = none)
    (hp : processNode app st i = some st') :
    lookupOut st'.outputs s = none := by
  by_cases his : app.connections.weightAt i = s
  · rw [processNode_scope app st.outputs st.trace i s comp his hC hT] at hp
    obtain rfl : (⟨st.outputs, st.trace ++ [app.get_input_value s st.outputs]⟩ :
        SimState) = st' := by exact Option.some.inj hp
    exact hm
  · have his' : ¬ s = app.connections.weightAt i := fun h => his h.symm
    cases hc2 : lookupComp app.components (app.connections.weightAt i) with
    | none =>
      simp only [processNode, hc2] at hp
      obtain rfl : st = st' := Option.some.inj hp
      exact hm
    | some comp2 =>
      cases htype2 : comp2.component_type with
      | Delay k => simp [processNode, hc2, htype2] at hp
      | Scope =>
        simp only [processNode, hc2, htype2] at hp
        obtain rfl := Option.some.inj hp
        exact hm
      | Step =>
        simp only [processNode, hc2, htype2] at hp
        obtain rfl := Option.some.inj hp
        simp [lookupOut_insertOut, his', hm]
      | TransferFunction =>
        simp only [processNode, hc2, htype2] at hp
        obtain rfl := Option.some.inj hp
        simp [lookupOut_insertOut, his', hm]
      | Difference =>
        simp only [processNode, hc2, htype2] at hp
        obtain rfl := Option.some.inj hp
        simp [lookupOut_insertOut, his', hm]
      | DiscreteDerivative =>
        simp only [processNode, hc2, htype2] at hp
        obtain rfl := Option.some.inj hp
        simp [lookupOut_insertOut, his', hm]
      | DiscreteIntegrator =>
        simp only [processNode, hc2, htype2] at hp
        obtain rfl := Option.some.inj hp
        simp [lookupOut_insertOut, his', hm]
      | PIDController kp ki kd =>
        simp only [processNode, hc2, htype2] at hp
        obtain rfl := Option.some.inj hp
        simp [lookupOut_insertOut, his', hm]
      | Memory =>
        simp only [processNode, hc2, htype2] at hp
        obtain rfl := Option.some.inj hp
        simp [lookupOut_insertOut, his', hm]

theorem evalNodes_preserves_missing (app : SimulatorApp) (s : Nat) (comp : Component)
    (hC : lookupComp app.components s = some comp)
    (hT : comp.component_type = ComponentType.Scope) (l : List Nat) :
    ∀ (st st' : SimState), lookupOut st.outputs s = none →
    evalNodes app st l = some st' → lookupOut st'.outputs s = none := by
  induction l with
  | nil =>
    intro st st' hm heval
    simp [evalNodes] at heval
    simpa [← heval] using hm
  | cons i is ih =>
    intro st st' hm heval
    simp only [evalNodes] at heval
    cases hp : processNode app st i with
    | none => simp [hp] at heval
    | some st2 =>
      simp only [hp] at heval
      exact ih st2 st' (processNode_preserves_missing app s comp hC hT st st2 i hm hp) heval

theorem runStepsAux_preserves_missing (app : SimulatorApp) (s : Nat) (comp : Component)
    (hC : lookupComp app.components s = some comp)
    (hT : comp.component_type = ComponentType.Scope) :
    ∀ (n : Nat) (st st' : SimState), lookupOut st.outputs s = none →
    runStepsAux app st n = some st' → lookupOut st'.outputs s = none := by
  intro n
  induction n with
  | zero =>
    intro st st' hm h
    simp [runStepsAux] at h
    simpa [← h] using hm
  | succ n ih =>
    intro st st' hm h
    simp only [runStepsAux] at h
    cases hs : stepOnce app st with
    | none => simp [hs] at h
    | some st2 =>
      simp only [hs] at h
      exact ih st2 st'
        (evalNodes_preserves_missing app s comp hC hT (kahnOrder app.connections)
          st st2 hm hs) h

theorem inputSum_skip (m : List (Nat × ℚ)) (p : Nat) (hm : lookupOut m p = none) :
    ∀ (ps₁ ps₂ : List Nat) (acc : ℚ),
    inputSum m (ps₁ ++ p :: ps₂) acc = inputSum m (ps₁ ++ ps₂) acc := by
  intro ps₁
  induction ps₁ with
  | nil => intro ps₂ acc; simp [inputSum, hm]
  | cons q qs ih =>
    intro ps₂ acc
    simp only [List.cons_append, inputSum]
    cases hq : lookupOut m q with
    | none => exact ih ps₂ acc
    | some v => exact ih ps₂ (acc + v)

/-! ### Lemmas about the concrete two-node chain `Step → Scope` -/

theorem stepOnce_stepScope (m : List (Nat × ℚ)) (tr : List ℚ) :
    stepOnce stepScopeApp ⟨m, tr⟩ = some ⟨insertOut m 0 1, tr ++ [1]⟩ := by
  have hk : kahnOrder stepScopeApp.connections = [0, 1] := by decide
  simp [stepOnce, hk, evalNodes, processNode, stepScopeApp, SimulatorApp.new,
    SimulatorApp.add_component, SimulatorApp.connect_components, lookupComp,
    SimulatorApp.get_input_value, findIdxWithWeight, findIdxSelf, DiGraph.weightAt,
    DiGraph.nodeIndices, upto, getNat, incomingIdxs, inputSum, lookupOut_insertOut]

theorem runStepsAux_stepScope :
    ∀ (n : Nat) (m : List (Nat × ℚ)) (tr : List ℚ),
    runStepsAux stepScopeApp ⟨insertOut m 0 1, tr⟩ n =
      some ⟨insertOut m 0 1, tr ++ List.replicate n 1⟩ := by
  intro n
  induction n with
  | zero => intro m tr; simp [runStepsAux]
  | succ n ih =>
    intro m tr
    simp only [runStepsAux, stepOnce_stepScope, insertOut_insertOut_same, ih]
    simp [List.replicate_succ]

theorem prevStepOnce_stepScope (m : List (Nat × ℚ)) (tr : List ℚ) :
    prevStepOnce stepScopeApp ⟨m, tr⟩ =
      some ⟨[(0, 1)], tr ++ [stepScopeApp.get_input_value 1 m]⟩ := by
  have hk : kahnOrder stepScopeApp.connections = [0, 1] := by decide
  simp [prevStepOnce, hk, prevEvalNodes, prevProcessNode, stepScopeApp, SimulatorApp.new,
    SimulatorApp.add_component, SimulatorApp.connect_components, lookupComp,
    DiGraph.weightAt, getNat, insertOut, eraseKey]

theorem gather_stepScope_full :
    stepScopeApp.get_input_value 1 [(0, 1)] = 1 := by
  simp [SimulatorApp.get_input_value, findIdxWithWeight, stepScopeApp, SimulatorApp.new,
    SimulatorApp.add_component, SimulatorApp.connect_components, findIdxSelf,
    DiGraph.weightAt, DiGraph.nodeIndices, upto, getNat, incomingIdxs, inputSum, lookupOut]

theorem gather_stepScope_empty :
    stepScopeApp.get_input_value 1 [] = 0 := by
  simp [SimulatorApp.get_input_value, findIdxWithWeight, stepScopeApp, SimulatorApp.new,
    SimulatorApp.add_component, SimulatorApp.connect_components, findIdxSelf,
    DiGraph.weightAt, DiGraph.nodeIndices, upto, getNat, incomingIdxs, inputSum, lookupOut]

theorem prevRunAux_stepScope :
    ∀ (n : Nat) (tr : List ℚ),
    prevRunAux stepScopeApp ⟨[(0, 1)], tr⟩ n =
      some ⟨[(0, 1)], tr ++ List.replicate n 1⟩ := by
  intro n
  induction n with
  | zero => intro tr; simp [prevRunAux]
  | succ n ih =>
    intro tr
    simp only [prevRunAux, prevStepOnce_stepScope, gather_stepScope_full, ih]
    simp [List.replicate_succ]

/-! ### The claims -/

/-- Claim C1, corrected.  The source keeps one `component_outputs` map for
the whole run and inserts each output into it as soon as it is computed
(`src/src/main.rs` lines 106 and 173), so the summed input of a component is
gathered from that running map: a producer evaluated earlier in the same
step (producers precede consumers in the topological order) contributes its
current-step output, and only a producer not yet evaluated contributes its
previous recorded value (`0` before its first evaluation).  Witnessed on
`Step (0) → Scope (1)`: the source records `1` at every step including step
0 (first conjunct), while the claimed previous-map discipline
(`runPrevSteps`) records `0` at step 0 and `1` only afterwards (second
conjunct). -/
theorem C1_input_gathered_from_running_map :
    (∀ n : Nat, runSteps stepScopeApp (n + 1) =
        some ⟨[(0, 1)], List.replicate (n + 1) 1⟩) ∧
    (∀ n : Nat, runPrevSteps stepScopeApp (n + 1) =
        some ⟨[(0, 1)], 0 :: List.replicate n 1⟩) := by
  constructor
  · intro n
    simp only [runSteps, runStepsAux, stepOnce_stepScope]
    have h := runStepsAux_stepScope n [] ([] ++ [1])
    simp only [h]
    simp [insertOut, eraseKey, List.replicate_succ]
  · intro n
    simp only [runPrevSteps, prevRunAux, prevStepOnce_stepScope, gather_stepScope_empty]
    have h := prevRunAux_stepScope n ([] ++ [0])
    simp only [h]
    simp

/-- Claim C1, counterexample to the claim as stated.  On
`Step (0) → Scope (1)` the source's first recorded sample is `1`, the
`Step`'s output written earlier in the same step; under the claimed
discipline (every input gathered from the previous completed step's map,
modelled by `runPrevSteps`) the first sample is `0`, because the previous
map is empty when step 0 runs.  The two runs differ, so the summed input is
not computed from the previous step's map alone. -/
theorem C1_counterexample_previous_map :
    (runSteps stepScopeApp 1).map SimState.trace = some [1] ∧
    (runPrevSteps stepScopeApp 1).map SimState.trace = some [0] ∧
    ([1] : List ℚ) ≠ [0] := by
  refine ⟨?_, ?_, by simp⟩
  · simp [runSteps, runStepsAux, stepOnce_stepScope]
  · simp [runPrevSteps, prevRunAux, prevStepOnce_stepScope, gather_stepScope_empty]

/-- Claim C2, code bug.  On the instantaneous two-node cycle
`TransferFunction (0) ⇄ TransferFunction (1)` the `Topo` traversal yields no
node at all, and `simulate` completes all 100 steps normally with an empty
output map and an empty trace: the run terminates (no hang), silently
evaluates no node, and reports nothing — the source has no error channel at
all, so no `CycleDetected` is ever produced. -/
theorem C2_cycle_silently_skipped :
    kahnOrder cycApp.connections = [] ∧
    runSteps cycApp 100 = some ⟨[], []⟩ ∧
    cycApp.simulate = some cycApp := by
  refine ⟨by decide, by decide, by decide⟩

/-- Claim C3, code bug.  `Difference` stores its output in the shared map
and later reads that same entry back as `prev_value`
(`src/src/main.rs` lines 134-140 with the insert at line 173), so it
computes `input - previous_output`, not `input - previous_input`.  Fed the
constant `1` from a `Step` (graph `Step (0) → Difference (1)`), its output
is `0` at step 0 (first conjunct, where the claim holds) but `1` at step 1
(second conjunct), instead of the claimed `0` on every step. -/
theorem C3_difference_reads_own_output :
    (runSteps stepDiffApp 1).map (fun st => lookupOut st.outputs 1) =
      some (some 0) ∧
    (runSteps stepDiffApp 2).map (fun st => lookupOut st.outputs 1) =
      some (some 1) ∧
    (1 : ℚ) ≠ 0 := by
  refine ⟨?_, ?_, by norm_num⟩
  · norm_num [runSteps, runStepsAux, stepOnce, evalNodes, processNode,
      SimulatorApp.get_input_value, inputSum, lookupOut, insertOut, eraseKey,
      lookupComp, findIdxWithWeight, findIdxSelf, kahnOrder, topoLoop,
      readyFilter, noIncomingNodes, memN, allMem, incomingIdxs, outgoingIdxs,
      upto, getNat, DiGraph.weightAt, DiGraph.nodeIndices, SimulatorApp.new,
      SimulatorApp.add_component, SimulatorApp.connect_components, stepDiffApp]
  · norm_num [runSteps, runStepsAux, stepOnce, evalNodes, processNode,
      SimulatorApp.get_input_value, inputSum, lookupOut, insertOut, eraseKey,
      lookupComp, findIdxWithWeight, findIdxSelf, kahnOrder, topoLoop,
      readyFilter, noIncomingNodes, memN, allMem, incomingIdxs, outgoingIdxs,
      upto, getNat, DiGraph.weightAt, DiGraph.nodeIndices, SimulatorApp.new,
      SimulatorApp.add_component, SimulatorApp.connect_components, stepDiffApp]

/-- Claim C4, code bug.  `Memory` outputs the entry stored under its own id
and then stores that same output back (`src/src/main.rs` lines 166-170 with
the insert at line 173), so from step 1 on its output is frozen at its step-0
input and never follows later inputs.  On
`Step (0) → DiscreteIntegrator (1) → Memory (2)` with the integrator also
observed by `Scope (3)`: the memory's inputs were `1/10, 1/5, 3/10, 2/5`
(the trace), but after step 3 its output is still `1/10`, not the claimed
previous-step input `3/10`. -/
theorem C4_memory_latches_first_input :
    (runSteps memApp 4).map (fun st => (lookupOut st.outputs 2, st.trace)) =
      some (some (1/10), [1/10, 1/5, 3/10, 2/5]) ∧
    (1/10 : ℚ) ≠ 3/10 := by
  constructor
  · norm_num [runSteps, runStepsAux, stepOnce, evalNodes, processNode,
      SimulatorApp.get_input_value, inputSum, lookupOut, insertOut, eraseKey,
      lookupComp, findIdxWithWeight, findIdxSelf, kahnOrder, topoLoop,
      readyFilter, noIncomingNodes, memN, allMem, incomingIdxs, outgoingIdxs,
      upto, getNat, DiGraph.weightAt, DiGraph.nodeIndices, SimulatorApp.new,
      SimulatorApp.add_component, SimulatorApp.connect_components, memApp]
  · norm_num

/-- Claim C5, code bug.  The PID arm reads `prev_error` and `prev_integral`
from the map entries of ids `id+1` and `id+2` (`src/src/main.rs` lines
157-160), but the loop only ever inserts at a component's own id (line 173),
so those entries are never written and the newly computed error and integral
are discarded.  A lone unit-gain `PIDController (0)` with zero input
therefore recomputes the first-step value `111/10` at every step (first
conjunct: value after step 1), while the claimed carried-state recurrence
(`pidSpecRun`, modelled from the claim) yields `6/5` at step 1. -/
theorem C5_pid_state_never_written :
    (runSteps pidApp 2).map (fun st => lookupOut st.outputs 0) =
      some (some (111/10)) ∧
    (pidSpecRun 1 1 1 (1/10) (fun _ => 0) 1).1 = 6/5 ∧
    (111/10 : ℚ) ≠ 6/5 := by
  refine ⟨?_, ?_, by norm_num⟩
  · norm_num [runSteps, runStepsAux, stepOnce, evalNodes, processNode,
      SimulatorApp.get_input_value, inputSum, lookupOut, insertOut, eraseKey,
      lookupComp, findIdxWithWeight, findIdxSelf, kahnOrder, topoLoop,
      readyFilter, noIncomingNodes, memN, allMem, incomingIdxs, outgoingIdxs,
      upto, getNat, DiGraph.weightAt, DiGraph.nodeIndices, SimulatorApp.new,
      SimulatorApp.add_component, SimulatorApp.connect_components, pidApp]
  · norm_num [pidSpecRun, pidSpecStep]

theorem delayRun_getD :
    ∀ (inputs buf : List ℚ) (t : Nat), t < inputs.length →
    (delayRun buf inputs).getD t 0 =
      if t < buf.length then buf.getD t 0 else inputs.getD (t - buf.length) 0 := by
  intro inputs
  induction inputs with
  | nil => intro buf t h; simp at h
  | cons i rest ih =>
    intro buf t h
    cases t with
    | zero =>
      cases buf with
      | nil => simp [delayRun, delayStep]
      | cons b bs => simp [delayRun, delayStep]
    | succ s =>
      have hs : s < rest.length := by simpa using h
      cases buf with
      | nil =>
        simp only [delayRun, delayStep, List.nil_append, List.headD, List.tail,
          List.getD_cons_succ]
        rw [ih [] s hs]
        simp
      | cons b bs =>
        simp only [delayRun, delayStep, List.cons_append, List.tail_cons,
          List.getD_cons_succ]
        rw [ih (bs ++ [i]) s hs]
        simp only [List.length_append, List.length_cons, List.length_singleton,
          List.length_nil]
        rcases Nat.lt_trichotomy s bs.length with hc | hc | hc
        · have h1 : s < bs.length + 1 := by omega
          have h2 : s + 1 < bs.length + 1 := by omega
          rw [if_pos h1, if_pos h2, List.getD_append _ _ _ _ hc]
        · have h1 : s < bs.length + 1 := by omega
          have h2 : ¬ s + 1 < bs.length + 1 := by omega
          rw [if_pos h1, if_neg h2, List.getD_append_right _ _ _ _ (by omega)]
          subst hc
          simp
        · have h1 : ¬ s < bs.length + 1 := by omega
          have h2 : ¬ s + 1 < bs.length + 1 := by omega
          rw [if_neg h1, if_neg h2]
          have h3 : s + 1 - (bs.length + 1) = (s - (bs.length + 1)) + 1 := by omega
          rw [h3, List.getD_cons_succ]

/-- Claim C6, confirmed against the specification's design (the
`ComponentType::Delay` arm of `simulate` in `src/src/main.rs` lines 131-133
is a `todo` placeholder, so the ring-buffer rule of spec section 4.5 is
modelled here; the third conjunct shows the embedded source evaluator aborts
on a live `Delay` node).  The ring-buffer run outputs, at every step index
`t` of the input sequence, the explicit initial value `0` for `t < n` and
the input received `n` steps earlier otherwise; in particular `Delay(3)` fed
`1, 2, 3, 4, 5` outputs `0, 0, 0, 1, 2`. -/
theorem C6_delay_outputs_n_steps_ago :
    (∀ (n : Nat) (inputs : List ℚ) (t : Nat), t < inputs.length →
      (delayOutputs n inputs).getD t 0 =
        if t < n then 0 else inputs.getD (t - n) 0) ∧
    delayOutputs 3 [1, 2, 3, 4, 5] = [0, 0, 0, 1, 2] ∧
    runSteps delayApp 1 = none := by
  refine ⟨?_, ?_, by decide⟩
  · intro n inputs t ht
    rw [delayOutputs, delayInitBuf, delayRun_getD inputs (List.replicate n 0) t ht]
    simp only [List.length_replicate]
    by_cases h : t < n
    · rw [if_pos h, if_pos h]
      simp [List.getD_eq_getElem?_getD, List.getElem?_replicate, h]
    · rw [if_neg h, if_neg h]
  · norm_num [delayOutputs, delayInitBuf, delayRun, delayStep, List.replicate]

/-- Witness for C6: the general conjunct applied at `Delay(3)`, input list
`1, 2, 3, 4, 5`, step index `4`, whose output is the input from 3 steps
earlier, `2`. -/
theorem C6_witness : (delayOutputs 3 [1, 2, 3, 4, 5]).getD 4 0 = 2 := by
  have h := C6_delay_outputs_n_steps_ago.1 3 [1, 2, 3, 4, 5] 4 (by norm_num)
  simpa using h

/-- Claim C7, confirmed.  When the node of a consumer has exactly two
inbound edges whose producers both have recorded outputs, the gathered input
is their arithmetic sum `v₁ + v₂` (first conjunct) — for arbitrary `v₁, v₂`,
so in particular not their average and not an error; a doubled edge from one
producer contributes once per edge, `v + v` (second conjunct). -/
theorem C7_fan_in_is_summed :
    (∀ (app : SimulatorApp) (m : List (Nat × ℚ)) (c cIdx i₁ i₂ : Nat) (v₁ v₂ : ℚ),
      findIdxWithWeight app.connections app.connections.nodeIndices c = some cIdx →
      incomingIdxs app.connections.edges cIdx = [i₁, i₂] →
      lookupOut m (app.connections.weightAt i₁) = some v₁ →
      lookupOut m (app.connections.weightAt i₂) = some v₂ →
      app.get_input_value c m = v₁ + v₂) ∧
    (∀ (app : SimulatorApp) (m : List (Nat × ℚ)) (c cIdx i : Nat) (v : ℚ),
      findIdxWithWeight app.connections app.connections.nodeIndices c = some cIdx →
      incomingIdxs app.connections.edges cIdx = [i, i] →
      lookupOut m (app.connections.weightAt i) = some v →
      app.get_input_value c m = v + v) := by
  constructor
  · intro app m c cIdx i₁ i₂ v₁ v₂ hf hin h1 h2
    simp only [SimulatorApp.get_input_value, hf, hin, List.map_cons, List.map_nil,
      inputSum, h1, h2]
    ring
  · intro app m c cIdx i v hf hin h1
    simp only [SimulatorApp.get_input_value, hf, hin, List.map_cons, List.map_nil,
      inputSum, h1]
    ring

/-- Witness for C7: on `fanApp` (`Step (0) → Memory (2)`, `Step (1) →
Memory (2)`) with recorded outputs `3` and `4` the consumer receives `3 + 4`;
on `fanParApp` (a doubled edge `Step (0) → Memory (1)`) with recorded output
`3` it receives `3 + 3`. -/
theorem C7_witness :
    fanApp.get_input_value 2 [(0, 3), (1, 4)] = 3 + 4 ∧
    fanParApp.get_input_value 1 [(0, 3)] = 3 + 3 := by
  constructor
  · exact C7_fan_in_is_summed.1 fanApp [(0, 3), (1, 4)] 2 2 0 1 3 4
      (by decide) (by decide)
      (by simp [lookupOut, fanApp, SimulatorApp.new, SimulatorApp.add_component,
        SimulatorApp.connect_components, findIdxSelf, DiGraph.nodeIndices, upto,
        DiGraph.weightAt, getNat])
      (by simp [lookupOut, fanApp, SimulatorApp.new, SimulatorApp.add_component,
        SimulatorApp.connect_components, findIdxSelf, DiGraph.nodeIndices, upto,
        DiGraph.weightAt, getNat])
  · exact C7_fan_in_is_summed.2 fanParApp [(0, 3)] 1 1 0 3
      (by decide) (by decide)
      (by simp [lookupOut, fanParApp, SimulatorApp.new, SimulatorApp.add_component,
        SimulatorApp.connect_components, findIdxSelf, DiGraph.nodeIndices, upto,
        DiGraph.weightAt, getNat])

/-- The reachable-state invariant of the application: node weights are
exactly `0, 1, ..., next_id - 1` in insertion order, so a component id, the
index of its node and the weight of that node all coincide.  It holds for
`SimulatorApp::new` and is preserved by `add_component` and
`connect_components` (the three operations that build graphs). -/
def WellFormed (app : SimulatorApp) : Prop :=
  app.connections.nodeWeights = upto app.next_id

theorem wellFormed_new : WellFormed SimulatorApp.new := rfl

theorem wellFormed_add_component (app : SimulatorApp) (ct : ComponentType)
    (h : WellFormed app) : WellFormed (app.add_component ct) := by
  simp only [WellFormed, SimulatorApp.add_component] at h ⊢
  rw [h]
  rfl

theorem wellFormed_connect_components (app : SimulatorApp) (f t : Nat)
    (h : WellFormed app) : WellFormed (app.connect_components f t) := by
  simp only [WellFormed, SimulatorApp.connect_components] at h ⊢
  cases h1 : findIdxSelf app.connections.nodeIndices f with
  | none => exact h
  | some fi =>
    cases h2 : findIdxSelf app.connections.nodeIndices t with
    | none => exact h
    | some ti => exact h

/-- Claim C8, confirmed.  On every well-formed application state (node
weights = `0 .. next_id - 1`, the invariant of all reachable states): when
both ids exist as graph nodes, `connect_components` appends exactly the edge
from the node carrying `fromId` to the node carrying `toId` and changes
nothing else (the index it finds equals the id, and that node's weight is
the id); when either id is not a node, it returns the state completely
unchanged and does not fail. -/
theorem C8_connect_adds_edge_or_noop (app : SimulatorApp) (fromId toId : Nat)
    (h : WellFormed app) :
    (fromId ∈ app.connections.nodeWeights → toId ∈ app.connections.nodeWeights →
      (app.connect_components fromId toId =
        { app with connections :=
            ⟨app.connections.nodeWeights,
             app.connections.edges ++ [(fromId, toId)]⟩ } ∧
       app.connections.weightAt fromId = fromId ∧
       app.connections.weightAt toId = toId)) ∧
    ((fromId ∉ app.connections.nodeWeights ∨ toId ∉ app.connections.nodeWeights) →
      app.connect_components fromId toId = app) := by
  have hlen : app.connections.nodeWeights.length = app.next_id := by
    rw [h, upto_length]
  constructor
  · intro hf ht
    have hf' : fromId < app.next_id := by
      rw [h] at hf; exact (mem_upto _ _).1 hf
    have ht' : toId < app.next_id := by
      rw [h] at ht; exact (mem_upto _ _).1 ht
    have h1 : findIdxSelf app.connections.nodeIndices fromId = some fromId := by
      rw [DiGraph.nodeIndices, hlen, findIdxSelf_upto]
      simp [hf']
    have h2 : findIdxSelf app.connections.nodeIndices toId = some toId := by
      rw [DiGraph.nodeIndices, hlen, findIdxSelf_upto]
      simp [ht']
    refine ⟨?_, ?_, ?_⟩
    · simp only [SimulatorApp.connect_components, h1, h2]
    · rw [DiGraph.weightAt, h]
      exact getNat_upto _ _ hf'
    · rw [DiGraph.weightAt, h]
      exact getNat_upto _ _ ht'
  · intro hor
    rcases hor with hn | hn
    · have hf' : ¬ fromId < app.next_id := by
        intro hlt
        exact hn (by rw [h]; exact (mem_upto _ _).2 hlt)
      have h1 : findIdxSelf app.connections.nodeIndices fromId = none := by
        rw [DiGraph.nodeIndices, hlen, findIdxSelf_upto]
        simp [hf']
      cases h2 : findIdxSelf app.connections.nodeIndices toId with
      | none => simp only [SimulatorApp.connect_components, h1, h2]
      | some ti => simp only [SimulatorApp.connect_components, h1, h2]
    · have ht' : ¬ toId < app.next_id := by
        intro hlt
        exact hn (by rw [h]; exact (mem_upto _ _).2 hlt)
      have h2 : findIdxSelf app.connections.nodeIndices toId = none := by
        rw [DiGraph.nodeIndices, hlen, findIdxSelf_upto]
        simp [ht']
      cases h1 : findIdxSelf app.connections.nodeIndices fromId with
      | none => simp only [SimulatorApp.connect_components, h1, h2]
      | some fi => simp only [SimulatorApp.connect_components, h1, h2]

/-- Witness for C8: on the two-node application (ids 0 and 1, no edges),
connecting `0 → 1` appends exactly that edge, and connecting `0 → 5`
(id 5 does not exist) returns the state unchanged. -/
theorem C8_witness :
    twoNodeApp.connect_components 0 1 =
      { twoNodeApp with connections :=
          ⟨twoNodeApp.connections.nodeWeights,
           twoNodeApp.connections.edges ++ [(0, 1)]⟩ } ∧
    twoNodeApp.connect_components 0 5 = twoNodeApp := by
  have hwf : WellFormed twoNodeApp :=
    show twoNodeApp.connections.nodeWeights = upto twoNodeApp.next_id by decide
  constructor
  · exact ((C8_connect_adds_edge_or_noop twoNodeApp 0 1 hwf).1
      (by decide) (by decide)).1
  · exact (C8_connect_adds_edge_or_noop twoNodeApp 0 5 hwf).2
      (Or.inr (by decide))

/-- Claim C9, confirmed.  First conjunct: the trace produced by a run does
not depend on whatever `simulation_data` held before the run — it is cleared
at the start (`simulate` line 102).  Second conjunct: evaluating a `Scope`
node appends exactly one sample, its gathered input (the observed signal),
and leaves the output map untouched (the `Scope` arm pushes the input and
`continue`s past the insert).  Third conjunct: a run of nodes containing no
live `Scope` appends no sample at all, so each `Scope` contributes exactly
one sample per step.  Fourth conjunct: evaluation of a step's order
decomposes sequentially, so samples of one step are appended in the order
the scheduler visits the scopes. -/
theorem C9_trace_cleared_one_sample_per_scope :
    (∀ (app : SimulatorApp) (d : List ℚ) (n : Nat),
      simulateSteps { app with simulation_data := d } n =
        simulateSteps { app with simulation_data := [] } n) ∧
    (∀ (app : SimulatorApp) (m : List (Nat × ℚ)) (tr : List ℚ) (i s : Nat)
        (comp : Component),
      app.connections.weightAt i = s →
      lookupComp app.components s = some comp →
      comp.component_type = ComponentType.Scope →
      processNode app ⟨m, tr⟩ i = some ⟨m, tr ++ [app.get_input_value s m]⟩) ∧
    (∀ (app : SimulatorApp) (l : List Nat) (m : List (Nat × ℚ)) (tr : List ℚ)
        (st' : SimState),
      (∀ i ∈ l, ∀ comp : Component,
          lookupComp app.components (app.connections.weightAt i) = some comp →
          comp.component_type ≠ ComponentType.Scope) →
      evalNodes app ⟨m, tr⟩ l = some st' → st'.trace = tr) ∧
    (∀ (app : SimulatorApp) (st st₁ : SimState) (l₁ l₂ : List Nat),
      evalNodes app st l₁ = some st₁ →
      evalNodes app st (l₁ ++ l₂) = evalNodes app st₁ l₂) :=
  ⟨simulateSteps_sd, processNode_scope,
   fun app l m tr st' h he => evalNodes_trace_of_no_scope app l m tr st' h he,
   fun app st st₁ l₁ l₂ h => evalNodes_append app st st₁ l₁ l₂ h⟩

/-- Witness for C9, on `Step (0) → Scope (1)`: a stale pre-run trace `[5]`
does not change the run; the scope node appends exactly its gathered input;
the step-only prefix `[0]` appends nothing; and the full order `[0, 1]`
evaluates as the prefix followed by the rest. -/
theorem C9_witness :
    simulateSteps { stepScopeApp with simulation_data := [5] } 1 =
      simulateSteps { stepScopeApp with simulation_data := [] } 1 ∧
    processNode stepScopeApp ⟨[(0, 1)], []⟩ 1 =
      some ⟨[(0, 1)], [] ++ [stepScopeApp.get_input_value 1 [(0, 1)]]⟩ ∧
    (⟨[(0, 1)], []⟩ : SimState).trace = ([] : List ℚ) ∧
    evalNodes stepScopeApp ⟨[], []⟩ ([0] ++ [1]) =
      evalNodes stepScopeApp ⟨[(0, 1)], []⟩ [1] := by
  have heval : evalNodes stepScopeApp ⟨[], []⟩ [0] = some ⟨[(0, 1)], []⟩ := by
    simp [evalNodes, processNode, stepScopeApp, SimulatorApp.new,
      SimulatorApp.add_component, SimulatorApp.connect_components, lookupComp,
      DiGraph.weightAt, getNat, insertOut, eraseKey]
  refine ⟨C9_trace_cleared_one_sample_per_scope.1 stepScopeApp [5] 1, ?_, ?_, ?_⟩
  · exact C9_trace_cleared_one_sample_per_scope.2.1 stepScopeApp [(0, 1)] [] 1 1
      ⟨1, ComponentType.Scope⟩ (by decide) (by decide) rfl
  · refine C9_trace_cleared_one_sample_per_scope.2.2.1 stepScopeApp [0] [] []
      ⟨[(0, 1)], []⟩ ?_ heval
    intro i hi comp hc
    have hi0 : i = 0 := by simpa using hi
    subst hi0
    have hc0 : lookupComp stepScopeApp.components
        (stepScopeApp.connections.weightAt 0) = some ⟨0, ComponentType.Step⟩ := by
      decide
    rw [hc0] at hc
    cases hc
    simp
  · exact C9_trace_cleared_one_sample_per_scope.2.2.2 stepScopeApp ⟨[], []⟩
      ⟨[(0, 1)], []⟩ [0] [1] heval

/-- Claim C10, confirmed.  First conjunct: in any run of any length,
evaluating components never inserts an entry for the id of a live `Scope`
into the output map (the `Scope` arm `continue`s past the insert, and every
insert is keyed by the evaluated component's own id).  Second conjunct: a
producer with no entry in the output map — in particular a `Scope` —
contributes exactly nothing to a consumer's summed input: the sum over the
producer list with that producer removed is unchanged. -/
theorem C10_scope_writes_nothing_contributes_zero :
    (∀ (app : SimulatorApp) (n s : Nat) (comp : Component) (st : SimState),
      lookupComp app.components s = some comp →
      comp.component_type = ComponentType.Scope →
      runSteps app n = some st → lookupOut st.outputs s = none) ∧
    (∀ (m : List (Nat × ℚ)) (p : Nat) (ps₁ ps₂ : List Nat) (acc : ℚ),
      lookupOut m p = none →
      inputSum m (ps₁ ++ p :: ps₂) acc = inputSum m (ps₁ ++ ps₂) acc) := by
  constructor
  · intro app n s comp st hC hT hrun
    exact runStepsAux_preserves_missing app s comp hC hT n ⟨[], []⟩ st rfl hrun
  · intro m p ps₁ ps₂ acc hm
    exact inputSum_skip m p hm ps₁ ps₂ acc

/-- Witness for C10, on `Step (0) → Scope (1) → Memory (2)`: after one step
the scope id 1 has no entry in the output map, and a producer with no
recorded output (id 7) contributes nothing to a sum. -/
theorem C10_witness :
    lookupOut (⟨[(2, 0), (0, 1)], [1]⟩ : SimState).outputs 1 = none ∧
    inputSum [(0, 5)] ([0] ++ 7 :: []) 0 = inputSum [(0, 5)] ([0] ++ []) 0 := by
  have hrun : runSteps scopeFeedApp 1 = some ⟨[(2, 0), (0, 1)], [1]⟩ := by
    norm_num [runSteps, runStepsAux, stepOnce, evalNodes, processNode,
      SimulatorApp.get_input_value, inputSum, lookupOut, insertOut, eraseKey,
      lookupComp, findIdxWithWeight, findIdxSelf, kahnOrder, topoLoop,
      readyFilter, noIncomingNodes, memN, allMem, incomingIdxs, outgoingIdxs,
      upto, getNat, DiGraph.weightAt, DiGraph.nodeIndices, SimulatorApp.new,
      SimulatorApp.add_component, SimulatorApp.connect_components, scopeFeedApp]
  constructor
  · exact C10_scope_writes_nothing_contributes_zero.1 scopeFeedApp 1 1
      ⟨1, ComponentType.Scope⟩ ⟨[(2, 0), (0, 1)], [1]⟩ (by decide) rfl hrun
  · exact C10_scope_writes_nothing_contributes_zero.2 [(0, 5)] 7 [0] [] 0
      (by simp [lookupOut])

end Simu
